import Mathlib

/-!
Verification of the Supreme Court case-status scraper (src/main.py) against its
specification.  The Python source is shallowly embedded: each relevant Python
function is translated into an executable Lean definition over `List Char` /
`String`, with Python/CPython library semantics (regular-expression
substitution, `str.split`, `int(...)`, `datetime.strptime`) modelled explicitly
for the fragments the code exercises.  Character classes are modelled on their
ASCII fragment (all inputs handled by the scraper are ASCII); code points are
written numerically with the intended character named in a comment.
-/

/-! ## Python character and string primitives -/

/-- CPython regex class \s, ASCII fragment: space, \t, \n, \r, \v, \f
(code points 32, 9, 10, 13, 11, 12). -/
def isPySpace (c : Char) : Bool :=
  c.toNat = 32 || c.toNat = 9 || c.toNat = 10 || c.toNat = 13 ||
  c.toNat = 11 || c.toNat = 12

/-- CPython regex word class \w (used by the \b boundary assertion), ASCII
fragment: 0-9 (48-57), A-Z (65-90), a-z (97-122) and the underscore (95). -/
def isWordChar (c : Char) : Bool :=
  (48 ≤ c.toNat && c.toNat ≤ 57) || (65 ≤ c.toNat && c.toNat ≤ 90) ||
  (97 ≤ c.toNat && c.toNat ≤ 122) || c.toNat = 95

/-- Python str.lower on one character, ASCII fragment: A-Z (65-90) map to
a-z by adding 32, everything else is fixed. -/
def pyLower (c : Char) : Char :=
  if 65 ≤ c.toNat ∧ c.toNat ≤ 90 then Char.ofNat (c.toNat + 32) else c

/-- Python str.strip() / BeautifulSoup get_text(strip=True): drop leading and
trailing whitespace. -/
def pyStripL (l : List Char) : List Char :=
  ((l.dropWhile isPySpace).reverse.dropWhile isPySpace).reverse

/-- String-level str.strip(). -/
def pyStripS (s : String) : String :=
  ⟨pyStripL s.data⟩

/-- Python str.split(sep) for a one-character separator: split on every
occurrence, keeping empty segments; the empty string yields one empty
segment. -/
def pySplitChar (sep : Char) : List Char → List (List Char)
  | [] => [[]]
  | c :: t =>
    match pySplitChar sep t with
    | h :: r => if c = sep then [] :: h :: r else (c :: h) :: r
    | [] => if c = sep then [[], []] else [[c]]

/-- Digit-and-underscore tail of a Python integer literal: after a first
digit, digits accumulate; a single underscore must be followed by a digit
(CPython: underscores are allowed only between digits). -/
def pyDigits : List Char → Nat → Option Nat
  | [], acc => some acc
  | '_' :: t, acc =>
    match t with
    | d :: _ => if d.isDigit then pyDigits t acc else none
    | [] => none
  | c :: t, acc =>
    if c.isDigit then pyDigits t (acc * 10 + (c.toNat - 48)) else none

/-- Unsigned part of int(str): requires a leading digit. -/
def pyDigitsTop (l : List Char) : Option Nat :=
  match l with
  | c :: _ => if c.isDigit then pyDigits l 0 else none
  | [] => none

/-- Python int(str) (ASCII fragment): strip whitespace, optional single sign,
then a digit string with optional single underscores between digits; returns
none where CPython raises ValueError. -/
def pyInt? (s : String) : Option Int :=
  match pyStripL s.data with
  | '+' :: t => (pyDigitsTop t).map (fun n => (n : Int))
  | '-' :: t => (pyDigitsTop t).map (fun n => -(n : Int))
  | l => (pyDigitsTop l).map (fun n => (n : Int))

/-! ## solve_expression (src/main.py lines 230-246)

The Python function returns either the computed integer or the string
f-string beginning with the literal text Error evaluating expression; the
caller classifies a result by exactly that shape (isinstance str and
startswith), so the embedding keeps a two-constructor result type. -/

/-- Result of solve_expression: an integer, or the error string produced by
the except branch (every exception path returns a string starting with the
text Error evaluating expression). -/
inductive SolveResult where
  | ok (n : Int)
  | err
  deriving DecidableEq, Repr

/-- solve_expression: split on + when the text contains +, else on -;
exactly two parts are stripped and parsed as ints, else the except branch
yields the error string. -/
def solve_expression (text : String) : SolveResult :=
  let hasPlus := text.data.contains '+'
  match (if hasPlus then pySplitChar '+' text.data else pySplitChar '-' text.data) with
  | [a, b] =>
    match pyInt? ⟨a⟩, pyInt? ⟨b⟩ with
    | some x, some y => if hasPlus then .ok (x + y) else .ok (x - y)
    | _, _ => .err
  | _ => .err

/-- The two-integer-operand split around a given operator character: some
pair exactly when the text splits into two parts that both parse as Python
ints. -/
def twoOps (s : String) (op : Char) : Option (Int × Int) :=
  match pySplitChar op s.data with
  | [a, b] =>
    match pyInt? ⟨a⟩, pyInt? ⟨b⟩ with
    | some x, some y => some (x, y)
    | _, _ => none
  | _ => none

example : solve_expression "12 + 7" = .ok 19 := by decide
example : solve_expression "20 - 35" = .ok (-15) := by decide
example : solve_expression "12 * 7" = .err := by decide
example : solve_expression "+5-3" = .err := by decide
example : twoOps "+5-3" '-' = some (5, 3) := by decide
example : pyInt? " 1_0 " = some 10 := by decide
example : pyInt? "1__0" = none := by decide
example : pyInt? "+ 5" = none := by decide

/-! ## clean_header (src/main.py lines 423-435)

Each of the seven steps of clean_header is embedded as one executable pass.

Step 1 is re.sub of the pattern \s*/\s* by the three characters underscore,
bar, underscore.  The regex engine scans left to right: a match at a
position exists exactly when the maximal whitespace run there is followed by
a slash, and the match then also swallows the maximal whitespace run after
the slash.  The scanner below carries the pending (not yet emitted)
whitespace run and a flag meaning "inside the trailing whitespace of a
match". -/

/-- Scanner for re.sub of \s*/\s*.  pend holds pending whitespace
(reversed); skip is set right after a slash was consumed, so following
whitespace belongs to the match and is dropped. -/
def rsAux (pend : List Char) (skip : Bool) : List Char → List Char
  | [] => pend.reverse
  | c :: t =>
    if isPySpace c then
      if skip then rsAux pend skip t
      else rsAux (c :: pend) false t
    else if c = '/' then '_' :: '|' :: '_' :: rsAux [] true t
    else pend.reverse ++ (c :: rsAux [] false t)

/-- Step 1 of clean_header: collapse slash separators (with surrounding
whitespace) into the underscore-bar-underscore token. -/
def replaceSlashL (l : List Char) : List Char :=
  rsAux [] false l

/-- The pattern letter n of \bno\.?\b, case-insensitive. -/
def isN (c : Char) : Bool :=
  c = 'n' || c = 'N'

/-- The pattern letter o of \bno\.?\b, case-insensitive. -/
def isO (c : Char) : Bool :=
  c = 'o' || c = 'O'

/-- The replacement text of step 2. -/
def numberChars : List Char :=
  ['n', 'u', 'm', 'b', 'e', 'r']

/-- Step 2 of clean_header: re.sub of \bno\.?\b (IGNORECASE) by the text
number.  prev records whether the character just before the current scan
position is a word character (false at the start of the string).  A match
needs: a boundary before the n (prev false), the letters n and o, then -
greedy dot first - either a literal dot followed by a word character (the
boundary after the dot needs a word character next), or no dot and a
non-word character or end of string after the o.  Scanning resumes after the
matched text, with prev the word-ness of its last original character.

The scanner consumes at least one character per step, so it is written
structurally on a fuel argument initialised to the length of the list plus
one; the fuel-exhausted branch is unreachable from the wrapper below. -/
def replaceNoF : Nat → Bool → List Char → List Char
  | 0, _, l => l
  | _ + 1, _, [] => []
  | _ + 1, _, [c] => [c]
  | fuel + 1, prev, a :: b :: t =>
    if !prev && isN a && isO b then
      match t with
      | '.' :: w :: r =>
        if isWordChar w then numberChars ++ replaceNoF fuel false (w :: r)
        else numberChars ++ replaceNoF fuel true t
      | ['.'] => numberChars ++ replaceNoF fuel true t
      | [] => numberChars
      | c :: r =>
        if isWordChar c then a :: replaceNoF fuel (isWordChar a) (b :: c :: r)
        else numberChars ++ replaceNoF fuel true t
    else a :: replaceNoF fuel (isWordChar a) (b :: t)

/-- Step 2 of clean_header with sufficient fuel. -/
def replaceNoL (prev : Bool) (l : List Char) : List Char :=
  replaceNoF (l.length + 1) prev l

/-- Step 4 character class: keep exactly a-z (97-122), 0-9 (48-57), the bar
(124), the underscore (95) and the space (32); re.sub deletes every other
character. -/
def allowedChar (c : Char) : Bool :=
  (97 ≤ c.toNat && c.toNat ≤ 122) || (48 ≤ c.toNat && c.toNat ≤ 57) ||
  c.toNat = 124 || c.toNat = 95 || c.toNat = 32

/-- Step 5: str.replace of space by underscore. -/
def mapSpace (l : List Char) : List Char :=
  l.map (fun c => if c = ' ' then '_' else c)

/-- Step 6: re.sub collapsing every maximal run of underscores to one
underscore.  prevU records whether the previously emitted character of the
current run is an underscore. -/
def collapseAux (prevU : Bool) : List Char → List Char
  | [] => []
  | c :: t =>
    if c = '_' then
      if prevU then collapseAux true t else c :: collapseAux true t
    else c :: collapseAux false t

/-- Step 7: str.strip of underscores, one side. -/
def dropUnd (l : List Char) : List Char :=
  l.dropWhile (fun c => c = '_')

/-- Step 7: str.strip of underscores, both sides. -/
def stripUnd (l : List Char) : List Char :=
  ((dropUnd l).reverse.dropWhile (fun c => c = '_')).reverse

/-- clean_header on character lists: the seven steps in source order. -/
def cleanHeaderL (l : List Char) : List Char :=
  stripUnd (collapseAux false (mapSpace
    (List.filter allowedChar (List.map pyLower (replaceNoL false (replaceSlashL l))))))

/-- clean_header (src/main.py lines 423-435). -/
def clean_header (s : String) : String :=
  ⟨cleanHeaderL s.data⟩

/-- clean_headers (src/main.py lines 438-442): the loop is a map. -/
def cleanHeaders (hs : List String) : List String :=
  hs.map clean_header

/-- Step 2 of clean_header as a standalone String pass (used to state the
condition of the amended idempotence claim). -/
def replaceNoStr (s : String) : String :=
  ⟨replaceNoL false s.data⟩

example : clean_header "Case No. / Year" = "case_number_|_year" := by decide
example : clean_header "no_" = "no" := by decide
example : clean_header "no" = "number" := by decide
example : clean_header " // " = "|_|" := by decide
example : clean_header "No / x" = "no_|_x" := by decide
example : clean_header "no.x" = "numberx" := by decide
example : clean_header "no.." = "number" := by decide
example : clean_header "a  b" = "a_b" := by decide

/-! ## Table normalization (src/main.py lines 351-368 and 445-468)

A raw table is the dict produced by extract_table_data: a header list and a
list of rows.  A normalized record models the Python dict built by the
comprehension in process_table_data: an association list in insertion
order, where inserting an existing key overwrites its value in place
(CPython dict semantics). -/

/-- The header/rows pair of extract_table_data. -/
structure RawTable where
  header : List String
  rows : List (List String)
  deriving DecidableEq, Repr

/-- A normalized record: key/value pairs in dict insertion order. -/
abbrev Rec := List (String × Option String)

/-- CPython dict insert: an existing key keeps its position and gets the
new value; a new key is appended. -/
def pyDictInsert (d : Rec) (k : String) (v : Option String) : Rec :=
  if d.any (fun p => p.1 = k) then
    d.map (fun p => if p.1 = k then (k, v) else p)
  else d ++ [(k, v)]

/-- The dict comprehension: fold the pairs into an empty dict. -/
def pyDict (ps : List (String × Option String)) : Rec :=
  ps.foldl (fun d p => pyDictInsert d p.1 p.2) []

/-- Cell post-processing of the comprehension in line 466: a falsy (empty)
cell maps to None, any other cell to its stripped text. -/
def procCell (c : String) : Option String :=
  if c = "" then none else some (pyStripS c)

/-- The cells one record is built from (lines 462-464): the row truncated to
the header length, then right-padded with empty cells. -/
def paddedCells (n : Nat) (row : List String) : List String :=
  row.take n ++ List.replicate (n - (row.take n).length) ""

/-- One record from one row (lines 462-466): truncate the row to the header
length, right-pad with empty cells, then build the dict. -/
def mkRecord (ch : List String) (row : List String) : Rec :=
  let cells := row.take ch.length
  let cells := cells ++ List.replicate (ch.length - cells.length) ""
  pyDict (List.zip ch (cells.map procCell))

/-- process_table_data (lines 445-468).  A missing/invalid dict is the none
case; an empty cleaned-header list returns []; empty-list rows are skipped;
every other row yields one record. -/
def process_table_data (data : Option RawTable) : List Rec :=
  match data with
  | none => []
  | some t =>
    let ch := cleanHeaders t.header
    if ch.isEmpty then []
    else ((t.rows.filter (fun r => ¬r = [])).map (fun row => mkRecord ch row))

/-- Row conversion of extract_table_data (line 362): each cell is the
stripped text, and cells whose stripped text is empty are dropped. -/
def extractCells (r : List String) : List String :=
  (r.map pyStripS).filter (fun c => ¬c = "")

/-- Rows of extract_table_data (lines 358-364): convert each row and keep
only non-empty converted rows. -/
def extractRows (raw : List (List String)) : List (List String) :=
  (raw.map extractCells).filter (fun r => ¬r = [])

/-- extract_table_data (lines 351-368) on the texts of the header cells and
the texts of the body cells: header cells with empty stripped text are
dropped (line 354); rows are converted as above. -/
def extract_table_data (hdrTexts : List String) (raw : List (List String)) : RawTable :=
  ⟨(hdrTexts.map pyStripS).filter (fun c => ¬c = ""), extractRows raw⟩

/-- The extraction-then-normalization pipeline every section of the scraper
runs (extract_table_details feeding process_table_data). -/
def tablePipeline (hdrTexts : List String) (raw : List (List String)) : List Rec :=
  process_table_data (some (extract_table_data hdrTexts raw))

example :
    process_table_data (some ⟨["A", "B"], [["1"], ["2", "x", "y"]]⟩) =
      [[("a", some "1"), ("b", none)], [("a", some "2"), ("b", some "x")]] := by
  decide

example :
    process_table_data (some ⟨["a"], [[" "]]⟩) = [[("a", some "")]] := by
  decide

example :
    tablePipeline ["A", "B"] [["1"], ["", "  "]] = [[("a", some "1"), ("b", none)]] := by
  decide

/-! ## retry_captcha_process (src/main.py lines 137-199)

The browser session is abstracted into a script: for each attempt index, the
classification of that attempt.  An attempt either has its solver result
classified as a parse failure (the result is a string starting with the text
Error evaluating expression, line 164), or submits the answer and observes
one of the page states after submission.

Two behaviours of the source are modelled exactly as written:
- line 168 calls retry_captcha_process recursively with the default
  max_attempts (20) and discards its return value, so the enclosing call
  falls through and returns None;
- lines 181-183 call EC.visibility_of_element_located with two positional
  arguments; the function takes a single locator tuple, so the call raises
  TypeError before any wait happens, the inner except-pass swallows it, and
  the return False of line 184 is unreachable.  On a not-found page the
  subsequent wait for the results table (line 188) then times out and the
  outer except of line 194 returns None.
-/

/-- The scraped case record (a Python dict); its contents are irrelevant to
the control flow, so it is abstracted to a token. -/
abbrev CaseData := Nat

/-- Page state observed after the search form is submitted. -/
inductive PageState where
  | notFound
  | results (d : CaseData)
  | broken
  deriving DecidableEq, Repr

/-- Classification of one CAPTCHA attempt. -/
inductive AttemptOutcome where
  | parseFail
  | solved (p : PageState)
  deriving DecidableEq, Repr

/-- A Python return value of retry_captcha_process: None (fall-through or a
swallowed exception), False (the dead not-found branch), or case data. -/
inductive PyRet where
  | none
  | false
  | data (d : CaseData)
  deriving DecidableEq, Repr

/-- What one call tree of retry_captcha_process produced: the Python return
value, the number of CAPTCHA image reads performed, and whether the
max-attempts exception of line 146 was raised (it is caught and logged by
the except of line 197, after which the function returns None). -/
structure RetryOut where
  ret : PyRet
  reads : Nat
  exhausted : Bool
  deriving DecidableEq, Repr

/-- The submission path (lines 170-196): the not-found check raises TypeError
(mis-called with two positional arguments) which is swallowed, so only the
results-table wait distinguishes page states; a missing results table times
out into the outer except, returning None. -/
def submitResult (p : PageState) : PyRet :=
  match p with
  | .results d => .data d
  | _ => .none

/-- retry_captcha_process (lines 137-199).  Attempt >= max_attempts raises,
caught by the function's own except: None, no read, exception recorded.
Otherwise one image is read; a parse failure refreshes and recurses with
attempt+1 and the default bound 20 (line 168), discarding the recursive
return value; any other classification submits. -/
def retry (script : Nat → AttemptOutcome) (attempt maxA : Nat) : RetryOut :=
  if attempt ≥ maxA then ⟨.none, 0, true⟩
  else
    match script attempt with
    | .parseFail =>
      let r := retry script (attempt + 1) 20
      ⟨.none, r.reads + 1, r.exhausted⟩
    | .solved p => ⟨submitResult p, 1, false⟩
termination_by (max maxA 20) - attempt
decreasing_by
  simp only [Nat.not_le] at *
  omega

/-! ## The driver inner loop (src/main.py lines 629-649)

For one year, the loop looks up ascending diary numbers starting at 1.  The
lookup outcomes are abstracted into a script from diary number to the truthy
payload (some data) or a falsy result (None or False both take the else
branch of line 645).  The loop is embedded with a fuel argument (the source
loop does not terminate on a script with fewer than 10 falsy outcomes). -/

/-- One year's inner while-loop (lines 636-648).  State: diary number,
continuous_empty_case counter, list of persisted (diary, data) pairs in
insertion order, and the count of lookups performed so far.  Per iteration:
perform the lookup (line 637), then break if the counter already equals 10
(lines 639-640), else persist a truthy result immediately or increment the
counter, and advance the diary number.  Returns the persisted list and the
total number of lookups, or none if fuel ran out. -/
def innerLoop (script : Nat → Option CaseData) :
    Nat → Nat → Nat → List (Nat × CaseData) → Nat →
    Option (List (Nat × CaseData) × Nat)
  | 0, _, _, _, _ => none
  | fuel + 1, diary, cnt, pers, lk =>
    let op := script diary
    if cnt = 10 then some (pers, lk + 1)
    else
      match op with
      | some d => innerLoop script fuel (diary + 1) cnt (pers ++ [(diary, d)]) (lk + 1)
      | none => innerLoop script fuel (diary + 1) (cnt + 1) pers (lk + 1)

/-- Misses (falsy lookups) among the n diary numbers starting at d. -/
def missCount (script : Nat → Option CaseData) (d n : Nat) : Nat :=
  match n with
  | 0 => 0
  | n + 1 => (if (script d).isNone then 1 else 0) + missCount script (d + 1) n

/-- Successful lookups among the n diary numbers starting at d, in order,
paired with their diary numbers. -/
def hitsList (script : Nat → Option CaseData) (d n : Nat) : List (Nat × CaseData) :=
  match n with
  | 0 => []
  | n + 1 =>
    match script d with
    | some v => (d, v) :: hitsList script (d + 1) n
    | none => hitsList script (d + 1) n

example : innerLoop (fun _ => none) 100 1 0 [] 0 = some ([], 11) := by decide
example :
    innerLoop (fun d => if d = 3 then some 7 else none) 100 1 0 [] 0 =
      some ([(3, 7)], 12) := by decide

/-! ## extract_date_from_filename and PDF ordering (src/main.py 536-541, 589)

The order key of a downloaded PDF: take the basename, the segment after the
last occurrence of the marker Order_, delete every occurrence of the text
.pdf, and parse with datetime.strptime and format %d-%b-%Y; on any failure
the key is datetime.min, i.e. year 1, month 1, day 1.

CPython strptime semantics for this format, mirrored below:
- the format's literal dashes split the text into three components, none of
  which may contain a dash;
- %d matches one or two digits with value 1..31 (regex alternation
  3[01] | [12] digit | 0[1-9] | [1-9]);
- %b matches a month abbreviation, case-insensitively;
- %Y matches exactly four digits;
- the datetime constructor then requires year >= 1 (MINYEAR) and the day to
  exist in the month (leap years included), else ValueError. -/

/-- A datetime value at midnight; comparison is lexicographic. -/
structure PyDate where
  year : Nat
  month : Nat
  day : Nat
  deriving DecidableEq, Repr

/-- datetime.min. -/
def pyDateMin : PyDate :=
  ⟨1, 1, 1⟩

/-- Strict lexicographic order on dates, as datetime comparison. -/
def pyDateLt (a b : PyDate) : Bool :=
  decide (a.year < b.year) ||
  (decide (a.year = b.year) &&
    (decide (a.month < b.month) ||
      (decide (a.month = b.month) && decide (a.day < b.day))))

/-- The month abbreviation table of the locale used by strptime,
lowercased, with the month numbers. -/
def monthTable : List (List Char × Nat) :=
  [("jan".data, 1), ("feb".data, 2), ("mar".data, 3), ("apr".data, 4),
   ("may".data, 5), ("jun".data, 6), ("jul".data, 7), ("aug".data, 8),
   ("sep".data, 9), ("oct".data, 10), ("nov".data, 11), ("dec".data, 12)]

/-- First-match lookup in the month table. -/
def monthFind (s : List Char) : List (List Char × Nat) → Option Nat
  | [] => none
  | (k, v) :: t => if s = k then some v else monthFind s t

/-- Month abbreviation lookup (case-insensitive), 1..12. -/
def monthNum? (l : List Char) : Option Nat :=
  monthFind (l.map pyLower) monthTable

/-- The %d component: one or two digits, value 1..31. -/
def parseDay? (l : List Char) : Option Nat :=
  if (l.length = 1 ∨ l.length = 2) ∧ l.all Char.isDigit then
    let v := l.foldl (fun a c => a * 10 + (c.toNat - 48)) 0
    if 1 ≤ v ∧ v ≤ 31 then some v else none
  else none

/-- The %Y component: exactly four digits. -/
def parseYear? (l : List Char) : Option Nat :=
  if l.length = 4 ∧ l.all Char.isDigit then
    some (l.foldl (fun a c => a * 10 + (c.toNat - 48)) 0)
  else none

/-- Gregorian leap year, as used by datetime. -/
def isLeap (y : Nat) : Bool :=
  y % 4 = 0 && (¬y % 100 = 0 || y % 400 = 0)

/-- Days in a month, as validated by the datetime constructor. -/
def daysInMonth (y m : Nat) : Nat :=
  if m = 2 then (if isLeap y then 29 else 28)
  else if m = 4 ∨ m = 6 ∨ m = 9 ∨ m = 11 then 30
  else 31

/-- strptime of the stripped date segment with format %d-%b-%Y, then the
datetime constructor's range checks. -/
def parseOrderDate (l : List Char) : Option PyDate :=
  match pySplitChar '-' l with
  | [ds, ms, ys] =>
    match parseDay? ds, monthNum? ms, parseYear? ys with
    | some d, some m, some y =>
      if 1 ≤ y ∧ d ≤ daysInMonth y m then some ⟨y, m, d⟩ else none
    | _, _, _ => none
  | _ => none

/-- os.path.basename: the part after the last slash. -/
def basenameL (l : List Char) : List Char :=
  (l.reverse.takeWhile (fun c => ¬c = '/')).reverse

/-- str.split on the marker Order_ followed by [-1]: the segment after the
last occurrence of the marker; the whole list when the marker is absent.
The some result of the auxiliary is that segment for the tail it was given.
Consumes at least one character per step: fuel as for replaceNoF. -/
def afterMarkerF : Nat → List Char → Option (List Char)
  | 0, _ => none
  | _ + 1, [] => none
  | fuel + 1, c :: t =>
    match c :: t with
    | 'O' :: 'r' :: 'd' :: 'e' :: 'r' :: '_' :: r =>
      some ((afterMarkerF fuel r).getD r)
    | _ => afterMarkerF fuel t

/-- The segment after the last Order_ marker (the whole list if absent). -/
def afterMarker (l : List Char) : List Char :=
  (afterMarkerF (l.length + 1) l).getD l

/-- str.replace of every occurrence of the four characters .pdf by nothing,
left to right. -/
def stripPdf : List Char → List Char
  | [] => []
  | '.' :: 'p' :: 'd' :: 'f' :: t => stripPdf t
  | c :: t => c :: stripPdf t

/-- The parse stage of extract_date_from_filename (lines 536-541): some date
on success, none where the Python code catches ValueError/IndexError. -/
def fileDate? (f : String) : Option PyDate :=
  parseOrderDate (stripPdf (afterMarker (basenameL f.data)))

/-- extract_date_from_filename: the parsed date, or datetime.min. -/
def extract_date_from_filename (f : String) : PyDate :=
  (fileDate? f).getD pyDateMin

/-- Stable insertion step for the ascending sort by order key: the new
element goes after every element with a strictly smaller key and before the
first element whose key is not smaller, so elements with equal keys keep
their original relative order - the behaviour of Python list.sort, which is
stable, and any two stable ascending sorts agree. -/
def insertByDate (x : String) : List String → List String
  | [] => [x]
  | y :: t =>
    if pyDateLt (extract_date_from_filename y) (extract_date_from_filename x) then
      y :: insertByDate x t
    else x :: y :: t

/-- pdf_files.sort(key=extract_date_from_filename) (line 589). -/
def sortFiles : List String → List String
  | [] => []
  | f :: t => insertByDate f (sortFiles t)

example : fileDate? "case_pdfs/d/Order_05-Jan-2021.pdf" = some ⟨2021, 1, 5⟩ := by decide
example : fileDate? "case_pdfs/d/Order_20-Mar-2020.pdf" = some ⟨2020, 3, 20⟩ := by decide
example : fileDate? "case_pdfs/d/scan.pdf" = none := by decide
example : fileDate? "case_pdfs/d/Order_01-Jan-0001.pdf" = some ⟨1, 1, 1⟩ := by decide
example : fileDate? "x/Order_31-Feb-2020.pdf" = none := by decide
example : fileDate? "x/Order_29-Feb-2020.pdf" = some ⟨2020, 2, 29⟩ := by decide
example : fileDate? "x/Order_29-Feb-2021.pdf" = none := by decide
example : fileDate? "x/Order_5-jan-2021.pdf" = some ⟨2021, 1, 5⟩ := by decide
example : fileDate? "x/Order_01-Jan-1.pdf" = none := by decide
example : fileDate? "x/Order_00-Jan-2020.pdf" = none := by decide
example : fileDate? "x/Order_01-Jan-0000.pdf" = none := by decide
example :
    sortFiles ["a/Order_05-Jan-2021.pdf", "a/Order_20-Mar-2020.pdf", "a/scan.pdf"] =
      ["a/scan.pdf", "a/Order_20-Mar-2020.pdf", "a/Order_05-Jan-2021.pdf"] := by
  decide

/-! ## Auxiliary notions for the clean_header development -/

/-- u occurs contiguously inside l. -/
def SubSeg (u l : List Char) : Prop :=
  ∃ a b, l = a ++ u ++ b

/-- No two adjacent underscores anywhere in l. -/
def NoDD (l : List Char) : Prop :=
  ¬SubSeg ['_', '_'] l

/-- The characters a clean_header output can contain: a-z (97-122), 0-9
(48-57), the bar (124) and the underscore (95) - the step 4 class minus the
space, which step 5 rewrites. -/
def goodChar (c : Char) : Bool :=
  (97 ≤ c.toNat && c.toNat ≤ 122) || (48 ≤ c.toNat && c.toNat ≤ 57) ||
  c.toNat = 124 || c.toNat = 95

/-! ## Theorems on the CAPTCHA retry controller -/

/-- Unfolding: at or beyond the bound, the max-attempts exception is raised
(and swallowed): no read, None. -/
theorem retry_eq_stop (script : Nat → AttemptOutcome) (attempt maxA : Nat)
    (h : maxA ≤ attempt) : retry script attempt maxA = ⟨.none, 0, true⟩ := by
  rw [retry]
  simp [h]

/-- Unfolding: below the bound, a parse failure reads once, recurses with the
default bound, and discards the recursive return value. -/
theorem retry_eq_parseFail (script : Nat → AttemptOutcome) (attempt maxA : Nat)
    (h1 : attempt < maxA) (h2 : script attempt = .parseFail) :
    retry script attempt maxA =
      ⟨.none, (retry script (attempt + 1) 20).reads + 1,
        (retry script (attempt + 1) 20).exhausted⟩ := by
  rw [retry]
  simp [Nat.not_le.mpr h1, h2]

/-- Unfolding: below the bound, a solved attempt reads once and submits. -/
theorem retry_eq_solved (script : Nat → AttemptOutcome) (attempt maxA : Nat)
    (p : PageState) (h1 : attempt < maxA) (h2 : script attempt = .solved p) :
    retry script attempt maxA = ⟨submitResult p, 1, false⟩ := by
  rw [retry]
  simp [Nat.not_le.mpr h1, h2]

/-- On an all-parse-failure script, starting at attempt k with n = 20 - k
attempts left, the run performs exactly n reads, raises the max-attempts
exception and returns None. -/
theorem retry_allFail_aux (script : Nat → AttemptOutcome)
    (h : ∀ i, script i = .parseFail) :
    ∀ n k, k + n = 20 → retry script k 20 = ⟨.none, n, true⟩ := by
  intro n
  induction n with
  | zero =>
    intro k hk
    exact retry_eq_stop script k 20 (by omega)
  | succ n ih =>
    intro k hk
    rw [retry_eq_parseFail script k 20 (by omega) (h k), ih (k + 1) (by omega)]

/-- Claim C1: on every run in which every attempt is classified as a parse
failure, under the default bound max_attempts = 20 the controller performs
exactly 20 CAPTCHA image reads (in particular never a 21st), raises the
max-attempts (CaptchaAttemptsExceeded) exception, and the current case
lookup ends with no data (the exception is logged inside
retry_captcha_process, which then returns None, so the lookup yields no
record while the outer crawl continues). -/
theorem captcha_retry_all_failures_bound (script : Nat → AttemptOutcome)
    (h : ∀ i, script i = .parseFail) :
    retry script 0 20 = ⟨.none, 20, true⟩ :=
  retry_allFail_aux script h 20 0 rfl

/-- Claim C1, witness: the concrete all-parse-failure script. -/
theorem captcha_retry_all_failures_bound_witness :
    retry (fun _ => .parseFail) 0 20 = ⟨.none, 20, true⟩ :=
  captcha_retry_all_failures_bound (fun _ => .parseFail) (fun _ => rfl)

/-- Claim C10: if the first attempt is classified as a parse failure (so a
retry is triggered), the top-level call returns None - the recursive call's
result is discarded at line 168 - no matter what the later attempts do. -/
theorem retry_discards_recursive_result (script : Nat → AttemptOutcome)
    (maxA : Nat) (h1 : 0 < maxA) (h2 : script 0 = .parseFail) :
    (retry script 0 maxA).ret = .none := by
  rw [retry_eq_parseFail script 0 maxA h1 h2]

/-- Claim C10, witness: the first attempt parse-fails, the second attempt
solves the CAPTCHA and extracts case data, yet the call returns None. -/
theorem retry_discards_recursive_result_witness :
    (retry (fun i => if i = 0 then .parseFail else .solved (.results 7)) 0 20).ret
      = .none :=
  retry_discards_recursive_result
    (fun i => if i = 0 then .parseFail else .solved (.results 7)) 20
    (by omega) rfl

/-- Claim C8 (code bug): a lookup that submits on an explicitly not-found
page returns None - byte-for-byte the same result as a lookup whose
results-table extraction fails - because the not-found check of lines
181-183 passes the locator as two positional arguments, raising TypeError
(swallowed by except-pass), so the distinct return False of line 184 is
unreachable and the results-table wait times out into the outer except. -/
theorem notfound_returns_none_bug :
    retry (fun _ => .solved .notFound) 0 20 = ⟨.none, 1, false⟩ ∧
      retry (fun _ => .solved .broken) 0 20 = ⟨.none, 1, false⟩ :=
  ⟨retry_eq_solved _ 0 20 .notFound (by omega) rfl,
    retry_eq_solved _ 0 20 .broken (by omega) rfl⟩

/-! ## Theorems on the driver inner loop -/

/-- A terminating run of the inner loop from any state: it ran some m + 1
iterations, the counter reached exactly 10 by accumulating the misses of the
first m diary numbers, every hit among those m was appended to the persisted
list in order, and the final iteration performed one further lookup whose
result was discarded by the break. -/
theorem innerLoop_run (script : Nat → Option CaseData) :
    ∀ fuel d c p l pers lk,
      innerLoop script fuel d c p l = some (pers, lk) →
      ∃ m, lk = l + m + 1 ∧ c + missCount script d m = 10 ∧
        pers = p ++ hitsList script d m := by
  intro fuel
  induction fuel with
  | zero =>
    intro d c p l pers lk h
    simp [innerLoop] at h
  | succ fuel ih =>
    intro d c p l pers lk h
    rw [innerLoop] at h
    by_cases hc : c = 10
    · simp only [hc, if_true, reduceIte, Option.some.injEq, Prod.mk.injEq] at h
      refine ⟨0, by omega, by simp [missCount, hc], by simp [hitsList, h.1]⟩
    · simp only [hc, if_false, reduceIte] at h
      cases hop : script d with
      | some v =>
        rw [hop] at h
        obtain ⟨m, h1, h2, h3⟩ := ih _ _ _ _ _ _ h
        exact ⟨m + 1, by omega, by simp [missCount, hop]; omega,
          by simp [hitsList, hop, h3]⟩
      | none =>
        rw [hop] at h
        obtain ⟨m, h1, h2, h3⟩ := ih _ _ _ _ _ _ h
        exact ⟨m + 1, by omega, by simp [missCount, hop]; omega,
          by simp [hitsList, hop, h3]⟩

/-- Claim C7, amended: when a year's inner loop terminates having performed
lk lookups, the counter (which accumulates misses cumulatively and is never
reset by a success) reached 10 over the first lk - 1 lookups, one further
lookup was performed after the 10th recorded miss and its result was
discarded without being persisted, and the persisted records are exactly the
successful lookups among the first lk - 1, in order (persisted immediately).
-/
theorem inner_loop_amended (script : Nat → Option CaseData) (fuel : Nat)
    (pers : List (Nat × CaseData)) (lk : Nat)
    (h : innerLoop script fuel 1 0 [] 0 = some (pers, lk)) :
    1 ≤ lk ∧ missCount script 1 (lk - 1) = 10 ∧
      pers = hitsList script 1 (lk - 1) := by
  obtain ⟨m, h1, h2, h3⟩ := innerLoop_run script fuel 1 0 [] 0 pers lk h
  have hm : lk - 1 = m := by omega
  refine ⟨by omega, ?_, ?_⟩
  · rw [hm]
    simpa using h2
  · rw [hm]
    simpa using h3

/-- Claim C7, witness: on the all-miss script, the loop for one year stops
after 11 lookups, the misses among the first 10 being exactly 10 and nothing
persisted. -/
theorem inner_loop_amended_witness :
    1 ≤ 11 ∧ missCount (fun _ => none) 1 (11 - 1) = 10 ∧
      ([] : List (Nat × CaseData)) = hitsList (fun _ => none) 1 (11 - 1) :=
  inner_loop_amended (fun _ => none) 100 [] 11 (by decide)

/-- Claim C7, counterexample: with every lookup a miss, the 10th consecutive
miss is recorded on the 10th lookup, yet the loop performs an 11th lookup
before breaking - it does not terminate exactly when the 10th miss is
recorded. -/
theorem inner_loop_extra_lookup_cex :
    innerLoop (fun _ => none) 100 1 0 [] 0 = some ([], 11) ∧ (11 : Nat) ≠ 10 := by
  decide

/-! ## Theorems on table normalization -/

/-- Every pair of a pyDictInsert result is an old pair or the inserted one. -/
theorem pyDictInsert_mem (d : Rec) (k : String) (v : Option String)
    (kv : String × Option String) (h : kv ∈ pyDictInsert d k v) :
    kv ∈ d ∨ kv = (k, v) := by
  unfold pyDictInsert at h
  split at h
  · obtain ⟨p, hp, hpe⟩ := List.mem_map.mp h
    by_cases hk : p.1 = k
    · rw [if_pos hk] at hpe
      exact Or.inr hpe.symm
    · rw [if_neg hk] at hpe
      exact Or.inl (hpe ▸ hp)
  · rcases List.mem_append.mp h with h' | h'
    · exact Or.inl h'
    · exact Or.inr (by simpa using h')

/-- Every pair of a pyDict is one of the zipped input pairs. -/
theorem pyDict_mem (ps : List (String × Option String)) (kv : String × Option String) :
    ∀ d : Rec, kv ∈ ps.foldl (fun d p => pyDictInsert d p.1 p.2) d →
      kv ∈ d ∨ kv ∈ ps := by
  induction ps with
  | nil => intro d h; exact Or.inl h
  | cons q t ih =>
    intro d h
    rw [List.foldl_cons] at h
    rcases ih _ h with h' | h'
    · rcases pyDictInsert_mem d q.1 q.2 kv h' with h'' | h''
      · exact Or.inl h''
      · exact Or.inr (by simp [h''])
    · exact Or.inr (List.mem_cons_of_mem _ h')

/-- Key membership through one insert. -/
theorem pyDictInsert_keys (d : Rec) (k : String) (v : Option String) (k' : String) :
    k' ∈ (pyDictInsert d k v).map Prod.fst ↔ k' ∈ d.map Prod.fst ∨ k' = k := by
  unfold pyDictInsert
  split
  · rename_i hany
    have hkeys : (d.map (fun p => if p.1 = k then (k, v) else p)).map Prod.fst =
        d.map Prod.fst := by
      rw [List.map_map]
      refine List.map_congr_left ?_
      intro p _
      by_cases hk : p.1 = k <;> simp [hk]
    rw [hkeys]
    constructor
    · exact Or.inl
    · rintro (h | rfl)
      · exact h
      · obtain ⟨p, hp, hpk⟩ := List.any_eq_true.mp hany
        simp at hpk
        exact List.mem_map.mpr ⟨p, hp, hpk⟩
  · rw [List.map_append]
    simp only [List.map_cons, List.map_nil, List.mem_append, List.mem_singleton]

/-- Key membership of a pyDict: a key of the dict is a key of the pairs. -/
theorem pyDict_keys (ps : List (String × Option String)) (k' : String) :
    ∀ d : Rec, k' ∈ (ps.foldl (fun d p => pyDictInsert d p.1 p.2) d).map Prod.fst ↔
      k' ∈ d.map Prod.fst ∨ k' ∈ ps.map Prod.fst := by
  induction ps with
  | nil => intro d; simp
  | cons q t ih =>
    intro d
    rw [List.foldl_cons, ih, pyDictInsert_keys]
    simp only [List.map_cons, List.mem_cons]
    tauto

/-- The keys of a pyDict have no duplicates: inserting never duplicates. -/
theorem pyDictInsert_keys_nodup (d : Rec) (k : String) (v : Option String)
    (h : (d.map Prod.fst).Nodup) : ((pyDictInsert d k v).map Prod.fst).Nodup := by
  unfold pyDictInsert
  split
  · have hkeys : (d.map (fun p => if p.1 = k then (k, v) else p)).map Prod.fst =
        d.map Prod.fst := by
      rw [List.map_map]
      refine List.map_congr_left ?_
      intro p _
      by_cases hk : p.1 = k <;> simp [hk]
    rwa [hkeys]
  · rename_i hany
    rw [List.map_append]
    simp only [List.map_cons, List.map_nil]
    rw [List.nodup_append]
    refine ⟨h, List.nodup_singleton k, ?_⟩
    intro a ha hk
    simp only [List.mem_singleton] at hk
    subst hk
    obtain ⟨p, hp, hpk⟩ := List.mem_map.mp ha
    have : d.any (fun p => p.1 = a) = true :=
      List.any_eq_true.mpr ⟨p, hp, by simp [hpk]⟩
    simp_all

/-- Nodup keys for the full fold. -/
theorem pyDict_keys_nodup (ps : List (String × Option String)) :
    ∀ d : Rec, (d.map Prod.fst).Nodup →
      ((ps.foldl (fun d p => pyDictInsert d p.1 p.2) d).map Prod.fst).Nodup := by
  induction ps with
  | nil => intro d h; exact h
  | cons q t ih =>
    intro d h
    rw [List.foldl_cons]
    exact ih _ (pyDictInsert_keys_nodup d q.1 q.2 h)

/-- A row (and its zipped record pairs) has as many processed cells as there
are cleaned headers: truncation then right-padding. -/
theorem processed_cells_length (ch row : List String) :
    ((row.take ch.length ++
      List.replicate (ch.length - (row.take ch.length).length) "").map procCell).length
      = ch.length := by
  simp [List.length_take]

/-- Claim C4: for a table with a non-empty cleaned header, every record
produced by process_table_data has duplicate-free keys, and its key set is
exactly the set of cleaned headers - rows longer than the header are
truncated, shorter rows are right-padded, so no key is missing from any
record and all records of one table share the same key set. -/
theorem table_records_key_set (t : RawTable) (h : ¬cleanHeaders t.header = [])
    (rec : Rec) (hrec : rec ∈ process_table_data (some t)) :
    (rec.map Prod.fst).Nodup ∧
      ∀ k, k ∈ rec.map Prod.fst ↔ k ∈ cleanHeaders t.header := by
  have hne : ¬(cleanHeaders t.header).isEmpty = true := by
    intro hh
    exact h (List.isEmpty_iff.mp hh)
  simp only [process_table_data] at hrec
  rw [if_neg hne] at hrec
  obtain ⟨row, hrow, hmk⟩ := List.mem_map.mp hrec
  subst hmk
  simp only [mkRecord]
  have hlen := processed_cells_length (cleanHeaders t.header) row
  constructor
  · exact pyDict_keys_nodup _ [] (by simp)
  · intro k
    unfold pyDict
    rw [pyDict_keys]
    rw [List.map_fst_zip _ _ (by rw [hlen])]
    simp

/-- Claim C4, witness: the specification's own example table, header A and B
with one short and one long row; the first produced record has
duplicate-free keys equal, as a set, to the cleaned headers. -/
theorem table_records_key_set_witness :
    (([("a", some "1"), ("b", none)] : Rec).map Prod.fst).Nodup ∧
      ∀ k, k ∈ (([("a", some "1"), ("b", none)] : Rec).map Prod.fst) ↔
        k ∈ cleanHeaders ["A", "B"] :=
  table_records_key_set ⟨["A", "B"], [["1"], ["2", "x", "y"]]⟩ (by decide)
    [("a", some "1"), ("b", none)] (by decide)

/-- A row whose cells all strip to the empty text contributes no cells. -/
theorem extractCells_eq_nil (r : List String) (h : ∀ c ∈ r, pyStripS c = "") :
    extractCells r = [] := by
  unfold extractCells
  rw [List.filter_eq_nil_iff]
  intro a ha
  obtain ⟨c, hc, hce⟩ := List.mem_map.mp ha
  simp [← hce, h c hc]

/-- Claim C6: a row all of whose cells are empty or whitespace-only yields no
record from the extraction-then-normalization pipeline: extract_table_data
drops each such cell (get_text(strip=True) is empty) and then drops the
now-empty row, so process_table_data never sees it. -/
theorem empty_row_no_record (H : List String) (a b : List (List String))
    (r : List String) (h : ∀ c ∈ r, pyStripS c = "") :
    tablePipeline H (a ++ r :: b) = tablePipeline H (a ++ b) := by
  unfold tablePipeline extract_table_data extractRows
  rw [List.map_append, List.map_append, List.map_cons,
    List.filter_append, List.filter_append, extractCells_eq_nil r h]
  simp

/-- Claim C6, witness: the row with one empty and one whitespace-only cell
under a two-column header produces no record. -/
theorem empty_row_no_record_witness :
    tablePipeline ["A", "B"] [["1"], ["", "  "]] = tablePipeline ["A", "B"] [["1"]] :=
  empty_row_no_record ["A", "B"] [["1"]] [] ["", "  "] (by decide)

/-- With duplicate-free keys, the dict fold never overwrites: it is the
identity on the pair list. -/
theorem pyDict_foldl_append (ps : List (String × Option String)) :
    ∀ d : Rec, (d.map Prod.fst ++ ps.map Prod.fst).Nodup →
      ps.foldl (fun d p => pyDictInsert d p.1 p.2) d = d ++ ps := by
  induction ps with
  | nil => intro d _; simp
  | cons q t ih =>
    intro d hnd
    obtain ⟨k, v⟩ := q
    rw [List.foldl_cons]
    simp only [List.map_cons] at hnd
    have hk : ¬k ∈ d.map Prod.fst := by
      intro hkd
      rw [List.nodup_append] at hnd
      exact hnd.2.2 hkd (by simp)
    have hins : pyDictInsert d k v = d ++ [(k, v)] := by
      unfold pyDictInsert
      rw [if_neg]
      intro hany
      obtain ⟨p, hp, hpk⟩ := List.any_eq_true.mp hany
      simp only [decide_eq_true_eq] at hpk
      exact hk (List.mem_map.mpr ⟨p, hp, hpk⟩)
    rw [hins, ih (d ++ [(k, v)]) ?_]
    · simp
    · simp only [List.map_append, List.map_cons, List.map_nil]
      rw [List.append_assoc]
      simpa using hnd

/-- A pyDict built from duplicate-free keys is the pair list itself. -/
theorem pyDict_eq_self (ps : List (String × Option String))
    (h : (ps.map Prod.fst).Nodup) : pyDict ps = ps := by
  unfold pyDict
  rw [pyDict_foldl_append ps [] (by simpa using h)]
  simp

/-- The padded cell list has exactly the header length. -/
theorem paddedCells_length (n : Nat) (row : List String) :
    (paddedCells n row).length = n := by
  simp [paddedCells, List.length_take]

/-- Claim C9, amended: for a table whose cleaned headers are pairwise
distinct, every record is exactly the cleaned headers zipped with the
processing of the record's own cells (the row truncated to the header
length, right-padded with empty cells, in order): the i-th value is null
precisely when the i-th cell is the empty string before trimming (padding
included), and otherwise it is the trimmed text of that very cell - so a
whitespace-only cell, being non-empty, is stored as the empty string, not
null.  (With duplicate cleaned headers the dict keeps one entry per key,
holding the last duplicate's value, as in claim C4.) -/
theorem cell_value_amended (t : RawTable)
    (hnd : (cleanHeaders t.header).Nodup) (rec : Rec)
    (hrec : rec ∈ process_table_data (some t)) :
    ∃ row, row ∈ t.rows ∧ ¬row = [] ∧
      rec = (cleanHeaders t.header).zip
        ((paddedCells (cleanHeaders t.header).length row).map
          (fun c => if c = "" then none else some (pyStripS c))) := by
  simp only [process_table_data] at hrec
  by_cases hne : (cleanHeaders t.header).isEmpty = true
  · rw [if_pos hne] at hrec
    simp at hrec
  · rw [if_neg hne] at hrec
    obtain ⟨row, hrow, hmk⟩ := List.mem_map.mp hrec
    rw [List.mem_filter] at hrow
    refine ⟨row, hrow.1, by simpa using hrow.2, ?_⟩
    rw [← hmk]
    have hdef : mkRecord (cleanHeaders t.header) row =
        pyDict ((cleanHeaders t.header).zip
          ((paddedCells (cleanHeaders t.header).length row).map procCell)) := rfl
    rw [hdef, pyDict_eq_self _ ?_]
    · rfl
    · rw [List.map_fst_zip]
      · exact hnd
      · rw [List.length_map, paddedCells_length]

/-- Claim C9, amended, witness: a two-column table with one cell carrying
surrounding whitespace and one whitespace-only cell; the record pairs each
header with its own cell's processing - the whitespace-only cell yields the
empty string, not null. -/
theorem cell_value_amended_witness :
    ∃ row, row ∈ [["x ", " "]] ∧ ¬row = [] ∧
      ([("a", some "x"), ("b", some "")] : Rec) = (cleanHeaders ["A", "B"]).zip
        ((paddedCells (cleanHeaders ["A", "B"]).length row).map
          (fun c => if c = "" then none else some (pyStripS c))) :=
  cell_value_amended ⟨["A", "B"], [["x ", " "]]⟩ (by decide)
    [("a", some "x"), ("b", some "")] (by decide)

/-- Claim C9, counterexample: the whitespace-only cell of a one-column table
is empty after trimming, yet its stored value is the empty string, not null.
-/
theorem cell_whitespace_not_null_cex :
    process_table_data (some ⟨["a"], [[" "]]⟩) = [[("a", some "")]] ∧
      pyStripS " " = "" ∧ ¬(some "" = (none : Option String)) := by
  decide

/-! ## Theorems on solve_expression -/

/-- solve_expression in terms of the two-operand split: plus whenever the
text contains a plus, else minus. -/
theorem solve_expression_eq (s : String) :
    solve_expression s =
      (if s.data.contains '+' = true then
        match twoOps s '+' with
        | some (a, b) => .ok (a + b)
        | none => .err
      else
        match twoOps s '-' with
        | some (a, b) => .ok (a - b)
        | none => .err) := by
  unfold solve_expression twoOps
  cases hp : s.data.contains '+'
  · simp only [Bool.false_eq_true, reduceIte]
    rcases hsp : pySplitChar '-' s.data with _ | ⟨a, _ | ⟨b, _ | _⟩⟩ <;>
        simp only [hsp] <;>
        first
        | rfl
        | cases hx : pyInt? ⟨a⟩ <;> cases hy : pyInt? ⟨b⟩ <;> simp [hx, hy]
  · simp only [reduceIte]
    rcases hsp : pySplitChar '+' s.data with _ | ⟨a, _ | ⟨b, _ | _⟩⟩ <;>
        simp only [hsp] <;>
        first
        | rfl
        | cases hx : pyInt? ⟨a⟩ <;> cases hy : pyInt? ⟨b⟩ <;> simp [hx, hy]

/-- Claim C5, amended: the plus rule is as claimed; the minus rule holds only
for texts not containing a plus, because line 232 splits on plus whenever
one occurs anywhere in the text; every other text yields the parse-failure
result (never a raised exception, which the except of line 244 converts into
the error string). -/
theorem solve_expression_amended (s : String) :
    (∀ a b : Int, s.data.contains '+' = true → twoOps s '+' = some (a, b) →
      solve_expression s = .ok (a + b)) ∧
    (∀ a b : Int, s.data.contains '+' = false → twoOps s '-' = some (a, b) →
      solve_expression s = .ok (a - b)) ∧
    ((s.data.contains '+' = true → twoOps s '+' = none) →
      (s.data.contains '+' = false → twoOps s '-' = none) →
      solve_expression s = .err) := by
  refine ⟨?_, ?_, ?_⟩
  · intro a b hp h
    rw [solve_expression_eq, if_pos hp, h]
  · intro a b hp h
    rw [solve_expression_eq, if_neg (by rw [hp]; simp), h]
  · intro h1 h2
    rw [solve_expression_eq]
    cases hp : s.data.contains '+'
    · simp only [Bool.false_eq_true, reduceIte]
      rw [h2 hp]
    · simp only [reduceIte]
      rw [h1 hp]

/-- Claim C5, amended, witness: the specification's three examples. -/
theorem solve_expression_amended_witness :
    solve_expression "12 + 7" = .ok 19 ∧ solve_expression "20 - 35" = .ok (-15) ∧
      solve_expression "12 * 7" = .err :=
  ⟨(solve_expression_amended "12 + 7").1 12 7 (by decide) (by decide),
    (solve_expression_amended "20 - 35").2.1 20 35 (by decide) (by decide),
    (solve_expression_amended "12 * 7").2.2 (by decide) (fun _ => by decide)⟩

/-- Claim C5, counterexample: the text plus-five-minus-three splits into the
two integer operands 5 and 3 around the minus sign (Python int accepts a
sign prefix), so the claim as stated requires the result 2; but the code
splits on the plus sign, getting the non-integer part before it, and returns
the parse-failure string. -/
theorem solve_expression_minus_precedence_cex :
    twoOps "+5-3" '-' = some (5, 3) ∧ solve_expression "+5-3" = .err ∧
      ¬solve_expression "+5-3" = .ok (5 - 3) := by
  decide

/-! ## Theorems on PDF date ordering -/

/-- The date order as propositions. -/
theorem pyDateLt_iff (a b : PyDate) :
    pyDateLt a b = true ↔
      a.year < b.year ∨ (a.year = b.year ∧
        (a.month < b.month ∨ (a.month = b.month ∧ a.day < b.day))) := by
  simp [pyDateLt]

/-- Negated date order as propositions. -/
theorem pyDateLt_eq_false_iff (a b : PyDate) :
    pyDateLt a b = false ↔
      ¬(a.year < b.year ∨ (a.year = b.year ∧
        (a.month < b.month ∨ (a.month = b.month ∧ a.day < b.day)))) := by
  rw [← pyDateLt_iff]
  cases pyDateLt a b <;> simp

/-- Transitivity of the reflexive order used by the sort. -/
theorem pyDateLt_false_trans (a b c : PyDate) (h1 : pyDateLt b a = false)
    (h2 : pyDateLt c b = false) : pyDateLt c a = false := by
  rw [pyDateLt_eq_false_iff] at *
  omega

/-- Every element of an insertByDate result is the inserted file or one of
the old ones. -/
theorem insertByDate_mem (x y : String) (l : List String)
    (h : y ∈ insertByDate x l) : y = x ∨ y ∈ l := by
  induction l with
  | nil => simpa [insertByDate] using h
  | cons z t ih =>
    unfold insertByDate at h
    split at h
    · rw [List.mem_cons] at h
      rcases h with h | h
      · exact Or.inr (by simp [h])
      · rcases ih h with h' | h'
        · exact Or.inl h'
        · exact Or.inr (List.mem_cons_of_mem _ h')
    · rw [List.mem_cons] at h
      rcases h with h | h
      · exact Or.inl h
      · exact Or.inr h

/-- Inserting preserves the sortedness invariant of the ascending sort. -/
theorem insertByDate_pairwise (x : String) (l : List String)
    (h : l.Pairwise (fun a b =>
      pyDateLt (extract_date_from_filename b) (extract_date_from_filename a) = false)) :
    (insertByDate x l).Pairwise (fun a b =>
      pyDateLt (extract_date_from_filename b) (extract_date_from_filename a) = false) := by
  induction l with
  | nil => simp [insertByDate]
  | cons z t ih =>
    rw [List.pairwise_cons] at h
    unfold insertByDate
    split
    · rename_i hlt
      rw [List.pairwise_cons]
      refine ⟨?_, ih h.2⟩
      intro y hy
      rcases insertByDate_mem x y t hy with rfl | hyt
      · cases hxz : pyDateLt (extract_date_from_filename y)
          (extract_date_from_filename z)
        · rfl
        · exfalso
          rw [pyDateLt_iff] at hxz hlt
          omega
      · exact h.1 y hyt
    · rename_i hnlt
      rw [List.pairwise_cons]
      refine ⟨?_, List.Pairwise.cons h.1 h.2⟩
      intro y hy
      rcases List.mem_cons.mp hy with rfl | hyt
      · simpa using hnlt
      · exact pyDateLt_false_trans _ _ _ (by simpa using hnlt) (h.1 y hyt)

/-- The %d component is between 1 and 31. -/
theorem parseDay?_bounds (l : List Char) (n : Nat) (h : parseDay? l = some n) :
    1 ≤ n ∧ n ≤ 31 := by
  unfold parseDay? at h
  dsimp only at h
  split at h
  · split at h
    · simp at h
      omega
    · simp at h
  · simp at h

/-- A successful table lookup returns a value of the table. -/
theorem monthFind_mem (s : List Char) :
    ∀ tbl n, monthFind s tbl = some n → ∃ k, (k, n) ∈ tbl := by
  intro tbl
  induction tbl with
  | nil => intro n h; exact absurd h (by simp [monthFind])
  | cons q t ih =>
    intro n h
    obtain ⟨k, v⟩ := q
    unfold monthFind at h
    split at h
    · injection h with h
      subst h
      exact ⟨k, by simp⟩
    · obtain ⟨k', hk'⟩ := ih n h
      exact ⟨k', List.mem_cons_of_mem _ hk'⟩

/-- The month abbreviation lookup is between 1 and 12. -/
theorem monthNum?_bounds (l : List Char) (n : Nat) (h : monthNum? l = some n) :
    1 ≤ n ∧ n ≤ 12 := by
  obtain ⟨k, hk⟩ := monthFind_mem _ monthTable n h
  have hall : ∀ p ∈ monthTable, 1 ≤ p.2 ∧ p.2 ≤ 12 := by decide
  exact hall (k, n) hk

/-- A parsed order date is bounded below by datetime.min in every field. -/
theorem parseOrderDate_bounds (l : List Char) (d : PyDate)
    (h : parseOrderDate l = some d) :
    1 ≤ d.year ∧ 1 ≤ d.month ∧ d.month ≤ 12 ∧ 1 ≤ d.day := by
  unfold parseOrderDate at h
  split at h
  · rename_i ds ms ys
    split at h
    · rename_i dd mm yy hdd hmm hyy
      split at h
      · rename_i hcond
        simp only [Option.some.injEq] at h
        subst h
        have h1 := parseDay?_bounds _ _ hdd
        have h2 := monthNum?_bounds _ _ hmm
        dsimp only
        omega
      · simp at h
    · simp at h
  · simp at h

/-- datetime.min is a least element for every derived order key. -/
theorem extract_date_min_le (f : String) :
    pyDateLt (extract_date_from_filename f) pyDateMin = false := by
  unfold extract_date_from_filename
  cases hfd : fileDate? f with
  | none =>
    rw [pyDateLt_eq_false_iff]
    simp [pyDateMin]
  | some d =>
    have := parseOrderDate_bounds _ _ hfd
    rw [pyDateLt_eq_false_iff]
    simp only [Option.getD_some, pyDateMin]
    omega

/-- Claim C2, amended: sorting by the derived order key yields a sequence
that is ascending in the key (so dated files appear in ascending date
order); files whose date cannot be parsed carry the sentinel datetime.min,
which is a least key; and in the sorted sequence nothing with a key later
than the sentinel ever precedes a sentinel-keyed file - so every undated
file precedes every dated file whose parsed date is strictly after
01-Jan-0001.  An undated file does not, however, necessarily precede a
dated file whose parsed date equals the sentinel. -/
theorem pdf_sort_amended (fs : List String) :
    (sortFiles fs).Pairwise (fun a b =>
      pyDateLt (extract_date_from_filename b) (extract_date_from_filename a) = false) ∧
    (∀ f, fileDate? f = none → extract_date_from_filename f = pyDateMin) ∧
    (sortFiles fs).Pairwise (fun a b =>
      extract_date_from_filename b = pyDateMin →
        extract_date_from_filename a = pyDateMin) := by
  have hsorted : (sortFiles fs).Pairwise (fun a b =>
      pyDateLt (extract_date_from_filename b) (extract_date_from_filename a) = false) := by
    induction fs with
    | nil => simp [sortFiles]
    | cons f t ih => exact insertByDate_pairwise f (sortFiles t) ih
  refine ⟨hsorted, ?_, ?_⟩
  · intro f hf
    unfold extract_date_from_filename
    rw [hf]
    rfl
  · refine hsorted.imp ?_
    intro a b hab hbmin
    have ha := extract_date_min_le a
    rw [pyDateLt_eq_false_iff] at hab ha
    rw [hbmin] at hab
    have hmin : pyDateMin.year = 1 ∧ pyDateMin.month = 1 ∧ pyDateMin.day = 1 := by
      exact ⟨rfl, rfl, rfl⟩
    have : (extract_date_from_filename a).year = 1 ∧
        (extract_date_from_filename a).month = 1 ∧
        (extract_date_from_filename a).day = 1 := by
      omega
    calc extract_date_from_filename a
        = ⟨1, 1, 1⟩ := by
          obtain ⟨h1, h2, h3⟩ := this
          cases hda : extract_date_from_filename a
          simp_all
      _ = pyDateMin := rfl

/-- Claim C2, counterexample: a file dated 01-Jan-0001 parses successfully
to exactly the sentinel datetime.min, so with a dated file first and an
undated file second the stable ascending sort keeps the dated file first:
the undated file does not precede every dated file. -/
theorem pdf_sort_undated_not_first_cex :
    fileDate? "case_pdfs/d/Order_01-Jan-0001.pdf" = some ⟨1, 1, 1⟩ ∧
      fileDate? "case_pdfs/d/scan.pdf" = none ∧
      sortFiles ["case_pdfs/d/Order_01-Jan-0001.pdf", "case_pdfs/d/scan.pdf"] =
        ["case_pdfs/d/Order_01-Jan-0001.pdf", "case_pdfs/d/scan.pdf"] := by
  decide

/-! ## Theorems on clean_header -/

/-- dropWhile only removes an initial segment. -/
theorem dropWhile_decomp (p : Char → Bool) (l : List Char) :
    ∃ a, l = a ++ l.dropWhile p := by
  induction l with
  | nil => exact ⟨[], rfl⟩
  | cons c t ih =>
    by_cases hc : p c
    · obtain ⟨a, ha⟩ := ih
      refine ⟨c :: a, ?_⟩
      rw [List.dropWhile_cons_of_pos hc]
      simpa using ha
    · refine ⟨[], ?_⟩
      rw [List.dropWhile_cons_of_neg hc]
      rfl

/-- The first kept character of dropWhile fails the predicate. -/
theorem dropWhile_head_false (p : Char → Bool) (l : List Char) (c : Char)
    (cs : List Char) (h : l.dropWhile p = c :: cs) : p c = false := by
  induction l with
  | nil => simp at h
  | cons d t ih =>
    by_cases hd : p d
    · rw [List.dropWhile_cons_of_pos hd] at h
      exact ih h
    · rw [List.dropWhile_cons_of_neg hd] at h
      obtain ⟨rfl, -⟩ := List.cons.inj h
      simpa using hd

/-- dropWhile is the identity when the head (if any) fails the predicate. -/
theorem dropWhile_eq_self (p : Char → Bool) (l : List Char)
    (h : ∀ c cs, l = c :: cs → p c = false) : l.dropWhile p = l := by
  cases l with
  | nil => rfl
  | cons c t =>
    rw [List.dropWhile_cons_of_neg]
    simp [h c t rfl]

/-- dropWhile is idempotent. -/
theorem dropWhile_idem (p : Char → Bool) (l : List Char) :
    (l.dropWhile p).dropWhile p = l.dropWhile p := by
  refine dropWhile_eq_self p _ ?_
  intro c cs h
  exact dropWhile_head_false p l c cs h

/-- Members survive dropWhile membership-wise. -/
theorem mem_dropWhile (p : Char → Bool) (l : List Char) (c : Char)
    (h : c ∈ l.dropWhile p) : c ∈ l := by
  obtain ⟨a, ha⟩ := dropWhile_decomp p l
  rw [ha]
  exact List.mem_append_right a h

/-- A contiguous occurrence persists under cons. -/
theorem subSeg_cons (u : List Char) (c : Char) (l : List Char)
    (h : SubSeg u l) : SubSeg u (c :: l) := by
  obtain ⟨a, b, rfl⟩ := h
  exact ⟨c :: a, b, rfl⟩

/-- A contiguous occurrence in a cons starts at the head or lies in the
tail. -/
theorem subSeg_cons_elim (u : List Char) (c : Char) (l : List Char)
    (h : SubSeg u (c :: l)) : (∃ b, c :: l = u ++ b) ∨ SubSeg u l := by
  obtain ⟨a, b, hab⟩ := h
  cases a with
  | nil => exact Or.inl ⟨b, by simpa using hab⟩
  | cons a0 a' =>
    simp only [List.cons_append] at hab
    obtain ⟨-, h2⟩ := List.cons.inj hab
    exact Or.inr ⟨a', b, h2⟩

/-- The empty list has no double underscore. -/
theorem noDD_nil : NoDD [] := by
  rintro ⟨a, b, h⟩
  simp at h

/-- NoDD is inherited by the tail. -/
theorem noDD_tail (c : Char) (l : List Char) (h : NoDD (c :: l)) : NoDD l :=
  fun hs => h (subSeg_cons _ c l hs)

/-- After an underscore with NoDD, the next character is not an underscore.
-/
theorem noDD_head (l : List Char) (h : NoDD ('_' :: l)) :
    ¬l.head? = some '_' := by
  intro hh
  cases l with
  | nil => simp at hh
  | cons c t =>
    simp only [List.head?_cons, Option.some.injEq] at hh
    subst hh
    exact h ⟨[], t, rfl⟩

/-- Building NoDD from the tail plus a head condition. -/
theorem noDD_cons (c : Char) (l : List Char) (h1 : NoDD l)
    (h2 : ¬(c = '_' ∧ l.head? = some '_')) : NoDD (c :: l) := by
  intro hs
  rcases subSeg_cons_elim _ c l hs with ⟨b, hb⟩ | hs'
  · simp only [List.cons_append] at hb
    obtain ⟨hc, hl⟩ := List.cons.inj hb
    refine h2 ⟨hc, ?_⟩
    rw [hl]
    simp
  · exact h1 hs'

/-- NoDD restricted to a right part of an append. -/
theorem noDD_append_right (a m : List Char) (h : NoDD (a ++ m)) : NoDD m := by
  rintro ⟨x, y, rfl⟩
  exact h ⟨a ++ x, y, by simp⟩

/-- NoDD is symmetric under reversal. -/
theorem noDD_reverse (l : List Char) (h : NoDD l) : NoDD l.reverse := by
  rintro ⟨a, b, hab⟩
  refine h ⟨b.reverse, a.reverse, ?_⟩
  have := congrArg List.reverse hab
  simpa [List.reverse_append] using this

/-- NoDD is preserved by dropWhile. -/
theorem noDD_dropWhile (p : Char → Bool) (l : List Char) (h : NoDD l) :
    NoDD (l.dropWhile p) := by
  obtain ⟨a, ha⟩ := dropWhile_decomp p l
  rw [ha] at h
  exact noDD_append_right a _ h

/-- NoDD is preserved by the underscore strip. -/
theorem noDD_stripUnd (l : List Char) (h : NoDD l) : NoDD (stripUnd l) := by
  unfold stripUnd dropUnd
  exact noDD_reverse _ (noDD_dropWhile _ _ (noDD_reverse _ (noDD_dropWhile _ _ h)))

/-- In underscore-pending mode the collapse never emits an underscore first.
-/
theorem collapseAux_head_ne (l : List Char) :
    ∀ c cs, collapseAux true l = c :: cs → ¬c = '_' := by
  induction l with
  | nil => intro c cs h; simp [collapseAux] at h
  | cons d t ih =>
    intro c cs h
    unfold collapseAux at h
    by_cases hd : d = '_'
    · rw [if_pos hd, if_pos rfl] at h
      exact ih c cs h
    · rw [if_neg hd] at h
      obtain ⟨rfl, -⟩ := List.cons.inj h
      exact hd

/-- The collapse output never contains adjacent underscores. -/
theorem noDD_collapseAux (l : List Char) : ∀ prevU, NoDD (collapseAux prevU l) := by
  induction l with
  | nil => intro prevU; exact noDD_nil
  | cons d t ih =>
    intro prevU
    unfold collapseAux
    by_cases hd : d = '_'
    · rw [if_pos hd]
      cases prevU with
      | true => rw [if_pos rfl]; exact ih true
      | false =>
        rw [if_neg (by simp)]
        refine noDD_cons d _ (ih true) ?_
        rintro ⟨-, hh⟩
        cases hc : collapseAux true t with
        | nil => rw [hc] at hh; simp at hh
        | cons c cs =>
          rw [hc] at hh
          simp only [List.head?_cons, Option.some.injEq] at hh
          exact collapseAux_head_ne t c cs hc hh
    · rw [if_neg hd]
      refine noDD_cons d _ (ih false) ?_
      rintro ⟨hd', -⟩
      exact hd hd'

/-- The collapse is the identity on NoDD lists whose head is compatible with
the mode. -/
theorem collapseAux_eq_self (l : List Char) :
    ∀ prevU, NoDD l → (prevU = true → ¬l.head? = some '_') →
      collapseAux prevU l = l := by
  induction l with
  | nil => intro prevU _ _; rfl
  | cons d t ih =>
    intro prevU hn hh
    unfold collapseAux
    by_cases hd : d = '_'
    · cases prevU with
      | true =>
        exfalso
        refine hh rfl ?_
        rw [hd]
        simp
      | false =>
        rw [if_pos hd, if_neg (by simp)]
        subst hd
        rw [ih true (noDD_tail _ _ hn) (fun _ => noDD_head t hn)]
    · rw [if_neg hd]
      rw [ih false (noDD_tail _ _ hn) (by simp)]

/-- If a list equals an initial segment plus a rest, a cons-shaped rest
determines the head of the whole. -/
theorem head_of_decomp (l m a : List Char) (c : Char) (cs : List Char)
    (hl : l = m ++ a) (hm : m = c :: cs) : ∃ t, l = c :: t := by
  subst hm
  exact ⟨cs ++ a, by simpa using hl⟩

/-- stripUnd is idempotent. -/
theorem stripUnd_idem (l : List Char) : stripUnd (stripUnd l) = stripUnd l := by
  unfold stripUnd dropUnd
  set pU : Char → Bool := fun c => c = '_' with hpU
  set y := l.dropWhile pU with hy
  set w := y.reverse.dropWhile pU with hw
  have hstep1 : w.reverse.dropWhile pU = w.reverse := by
    refine dropWhile_eq_self pU _ ?_
    intro c cs hwc
    obtain ⟨a, ha⟩ := dropWhile_decomp pU y.reverse
    have hyw : y = w.reverse ++ a.reverse := by
      have := congrArg List.reverse ha
      simpa [List.reverse_append, ← hw] using this
    obtain ⟨t, hyt⟩ := head_of_decomp y w.reverse a.reverse c cs hyw hwc
    exact dropWhile_head_false pU l c t (hy ▸ hyt)
  rw [hstep1, List.reverse_reverse, hw, dropWhile_idem]

/-- Characters of the collapse output come from its input. -/
theorem mem_collapseAux (l : List Char) :
    ∀ prevU c, c ∈ collapseAux prevU l → c ∈ l := by
  induction l with
  | nil => intro _ c h; simpa [collapseAux] using h
  | cons d t ih =>
    intro prevU c h
    unfold collapseAux at h
    by_cases hd : d = '_'
    · rw [if_pos hd] at h
      cases prevU with
      | true =>
        rw [if_pos rfl] at h
        exact List.mem_cons_of_mem d (ih true c h)
      | false =>
        rw [if_neg (by simp)] at h
        rcases List.mem_cons.mp h with rfl | h'
        · exact List.mem_cons_self c t
        · exact List.mem_cons_of_mem d (ih true c h')
    · rw [if_neg hd] at h
      rcases List.mem_cons.mp h with rfl | h'
      · exact List.mem_cons_self c t
      · exact List.mem_cons_of_mem d (ih false c h')

/-- Characters of the strip output come from its input. -/
theorem mem_stripUnd (l : List Char) (c : Char) (h : c ∈ stripUnd l) : c ∈ l := by
  unfold stripUnd dropUnd at h
  rw [List.mem_reverse] at h
  have h1 := mem_dropWhile _ _ _ h
  rw [List.mem_reverse] at h1
  exact mem_dropWhile _ _ _ h1

/-- Equal code points mean equal characters. -/
theorem char_eq_of_toNat (c d : Char) (h : c.toNat = d.toNat) : c = d := by
  refine Char.eq_of_val_eq ?_
  exact UInt32.toNat.inj h

/-- Every character of a clean_header output is good. -/
theorem good_cleanHeaderL (l : List Char) (c : Char) (h : c ∈ cleanHeaderL l) :
    goodChar c = true := by
  unfold cleanHeaderL at h
  have h1 := mem_collapseAux _ _ _ (mem_stripUnd _ _ h)
  unfold mapSpace at h1
  obtain ⟨a, ha, hac⟩ := List.mem_map.mp h1
  have haf := List.of_mem_filter ha
  by_cases hsp : a = ' '
  · rw [if_pos hsp] at hac
    subst hac
    decide
  · rw [if_neg hsp] at hac
    subst hac
    have hne : ¬a.toNat = 32 := by
      intro h32
      exact hsp (char_eq_of_toNat a ' ' h32)
    simp only [allowedChar, Bool.or_eq_true, Bool.and_eq_true,
      decide_eq_true_eq] at haf
    simp only [goodChar, Bool.or_eq_true, Bool.and_eq_true, decide_eq_true_eq]
    omega

/-- Good characters are not regex whitespace. -/
theorem goodChar_not_space (c : Char) (h : goodChar c = true) :
    isPySpace c = false := by
  simp only [goodChar, Bool.or_eq_true, Bool.and_eq_true, decide_eq_true_eq] at h
  simp only [isPySpace, Bool.or_eq_false_iff, decide_eq_false_iff_not]
  omega

/-- Good characters are not the slash. -/
theorem goodChar_not_slash (c : Char) (h : goodChar c = true) : ¬c = '/' := by
  intro hc
  subst hc
  exact absurd h (by decide)

/-- Good characters are not the blank. -/
theorem goodChar_not_blank (c : Char) (h : goodChar c = true) : ¬c = ' ' := by
  intro hc
  subst hc
  exact absurd h (by decide)

/-- Good characters are fixed by lowercasing. -/
theorem goodChar_lower (c : Char) (h : goodChar c = true) : pyLower c = c := by
  simp only [goodChar, Bool.or_eq_true, Bool.and_eq_true, decide_eq_true_eq] at h
  unfold pyLower
  rw [if_neg]
  omega

/-- Good characters pass the step 4 class. -/
theorem goodChar_allowed (c : Char) (h : goodChar c = true) :
    allowedChar c = true := by
  simp only [goodChar, Bool.or_eq_true, Bool.and_eq_true, decide_eq_true_eq] at h
  simp only [allowedChar, Bool.or_eq_true, Bool.and_eq_true, decide_eq_true_eq]
  omega

/-- The slash pass is the identity on lists without whitespace or slashes.
-/
theorem rsAux_eq_self (l : List Char)
    (h : ∀ c ∈ l, isPySpace c = false ∧ ¬c = '/') : rsAux [] false l = l := by
  induction l with
  | nil => rfl
  | cons c t ih =>
    unfold rsAux
    rw [if_neg (by simp [(h c (List.mem_cons_self c t)).1])]
    rw [if_neg (h c (List.mem_cons_self c t)).2]
    simp only [List.reverse_nil, List.nil_append, List.cons.injEq, true_and]
    exact ih (fun d hd => h d (List.mem_cons_of_mem c hd))

/-- A pointwise-fixed map is the identity. -/
theorem map_eq_self (f : Char → Char) (l : List Char) (h : ∀ c ∈ l, f c = c) :
    l.map f = l := by
  have h2 : l.map f = l.map id := List.map_congr_left (fun a ha => by
    simpa using h a ha)
  simpa using h2

/-- The fixed point of one clean_header pass: if the word-substitution pass
is already a no-op on the cleaned output, cleaning again changes nothing -
every other pass is a no-op on any cleaned output. -/
theorem cleanHeaderL_fix (l : List Char)
    (h : replaceNoL false (cleanHeaderL l) = cleanHeaderL l) :
    cleanHeaderL (cleanHeaderL l) = cleanHeaderL l := by
  have hgood : ∀ c ∈ cleanHeaderL l, goodChar c = true :=
    fun c hc => good_cleanHeaderL l c hc
  have hslash : replaceSlashL (cleanHeaderL l) = cleanHeaderL l := by
    unfold replaceSlashL
    exact rsAux_eq_self _ (fun c hc =>
      ⟨goodChar_not_space c (hgood c hc), goodChar_not_slash c (hgood c hc)⟩)
  have hlower : (cleanHeaderL l).map pyLower = cleanHeaderL l :=
    map_eq_self _ _ (fun c hc => goodChar_lower c (hgood c hc))
  have hfilter : (cleanHeaderL l).filter allowedChar = cleanHeaderL l :=
    List.filter_eq_self.mpr (fun c hc => goodChar_allowed c (hgood c hc))
  have hspace : mapSpace (cleanHeaderL l) = cleanHeaderL l := by
    unfold mapSpace
    exact map_eq_self _ _ (fun c hc => by
      rw [if_neg (goodChar_not_blank c (hgood c hc))])
  have hnoDD : NoDD (cleanHeaderL l) := by
    unfold cleanHeaderL
    exact noDD_stripUnd _ (noDD_collapseAux _ false)
  have hcollapse : collapseAux false (cleanHeaderL l) = cleanHeaderL l :=
    collapseAux_eq_self _ false hnoDD (by simp)
  have hstrip : stripUnd (cleanHeaderL l) = cleanHeaderL l := by
    conv_lhs => rw [cleanHeaderL]
    conv_rhs => rw [cleanHeaderL]
    exact stripUnd_idem _
  calc cleanHeaderL (cleanHeaderL l)
      = stripUnd (collapseAux false (mapSpace (List.filter allowedChar
          (List.map pyLower (replaceNoL false (replaceSlashL (cleanHeaderL l)))))))
        := rfl
    _ = cleanHeaderL l := by
        rw [hslash, h, hlower, hfilter, hspace, hcollapse, hstrip]

/-- Claim C3, amended: clean_header is total (the embedding is a total
function), and it is idempotent on every input whose cleaned form is left
unchanged by the word-substitution pass - equivalently, whose cleaned form
contains no boundary-delimited token no.  It is not idempotent in general.
-/
theorem clean_header_idempotent_cond (s : String)
    (h : replaceNoStr (clean_header s) = clean_header s) :
    clean_header (clean_header s) = clean_header s := by
  have hd : replaceNoL false (cleanHeaderL s.data) = cleanHeaderL s.data :=
    congrArg String.data h
  show (⟨cleanHeaderL (cleanHeaderL s.data)⟩ : String) = ⟨cleanHeaderL s.data⟩
  rw [cleanHeaderL_fix s.data hd]

/-- Claim C3, amended, witness: the specification's own example header. -/
theorem clean_header_idempotent_cond_witness :
    clean_header (clean_header "Case No. / Year") = clean_header "Case No. / Year" :=
  clean_header_idempotent_cond "Case No. / Year" (by decide)

/-- Claim C3, counterexample: cleaning the text n-o-underscore strips the
trailing underscore, exposing a bare word no that only the second pass
rewrites to number: clean_header is not idempotent. -/
theorem clean_header_not_idempotent_cex :
    clean_header "no_" = "no" ∧ clean_header (clean_header "no_") = "number" ∧
      ¬("number" : String) = "no" := by
  decide
